import Mathlib

/-!
Shallow embedding of the go-tollkit repository (package `toolkit`, file
`tools.go`): the upload pipeline (`UploadFiles`, `UploadFile`,
`processUploadedFile`, `isAllowedType`, `RandomString`) and the strict JSON
codec (`ReadJSON`, `WriteJSON`).

Modelling conventions:
* Go byte slices are `List Nat`; Go strings are `String`.
* Go errors are their message strings (`GoError`); fallible code returns
  `Except GoError _` or pairs an `Option GoError` with the state.
* The filesystem visible to the pipeline is an association list from path to
  content; a write prepends, a read takes the most recent entry.
* External effectful collaborators are an explicit environment `Env`:
  `detect` stands for `http.DetectContentType` and `entropy` for the stream of
  `p.Uint64()` values produced by `crypto/rand.Prime` inside `RandomString`
  (such a value is always the value of a 64-bit prime, hence odd).
* `http.Request.ParseMultipartForm(maxMemory)` follows the documented Go
  semantics: if the caller wrapped the body in `http.MaxBytesReader(limit)`
  and the body is larger than the limit, parsing fails with
  "http: request body too large"; otherwise only the accumulated *non-file*
  form values are bounded (by `maxMemory + 10 MiB`, error
  "multipart: message too large"); file parts of any size parse fine (Go
  spills them to temporary files).  The request therefore carries its parsed
  parts together with `bodySize`, `valueBytes` and the optional
  `maxBytesLimit` installed by the caller.
-/

abbrev GoError := String

deriving instance DecidableEq for Except

/-- A byte string: the content of a file or body, one `Nat` per byte. -/
abbrev Bytes := List Nat

/-- The filesystem as seen by the upload pipeline: newest write first. -/
abbrev FS := List (String × Bytes)

/-- `os.Create` followed by a full copy: (over)write `path` with `content`. -/
def fsWrite (fs : FS) (path : String) (content : Bytes) : FS :=
  (path, content) :: fs

/-- Look up the current content of `path`, newest write first. -/
def fsRead (fs : FS) (path : String) : Option Bytes :=
  (fs.find? (fun e => e.1 = path)).map (fun e => e.2)

/-- `filepath.Join dir name` for a simple directory and file name. -/
def joinPath (dir name : String) : String := dir ++ "/" ++ name

/-- Helper for `goExt`: scan the reversed path, accumulating the characters
seen so far; stop at a path separator (no extension) or at a dot (the
extension starts there). -/
def goExtRev : List Char → List Char → String
  | [], _ => ""
  | c :: rest, acc =>
    if c = '/' then ""
    else if c = '.' then String.mk ('.' :: acc)
    else goExtRev rest (c :: acc)

/-- `filepath.Ext`: the suffix beginning at the final dot in the final path
element, empty when there is no dot. -/
def goExt (path : String) : String := goExtRev path.toList.reverse []

/-- The constant `randomStringSource` from tools.go (64 characters). -/
def randomStringSource : String :=
  "abcdefghijklmnopqrstuvwxyzABCDEFGHIJKLMNOPQRSTUVWXYZ0123456789_+"

/-- External collaborators of the pipeline, made explicit. -/
structure Env where
  /-- `http.DetectContentType`: sniff a MIME type from the leading bytes. -/
  detect : Bytes → String
  /-- The i-th `p.Uint64()` value drawn from `crypto/rand.Prime` inside
  `RandomString`.  In a real run each value is a 64-bit prime. -/
  entropy : Nat → Nat

/-- `Tools.RandomString n`: for each position draw a prime, reduce its
`Uint64` value modulo `len(randomStringSource) = 64` and pick that character
of the source. -/
def RandomString (entropy : Nat → Nat) (n : Nat) : String :=
  String.mk ((List.range n).map (fun i =>
    randomStringSource.toList.getD (entropy i % randomStringSource.length) 'a'))

/-- The `Tools` configuration struct from tools.go. -/
structure Tools where
  MaxFileSize : Int
  AllowedTypes : List String
  MaxJSONSize : Int
  AllowUnknownFields : Bool
deriving DecidableEq, Repr

/-- The `UploadedFile` result record from tools.go. -/
structure UploadedFile where
  NewFileName : String
  OriginalFileName : String
  FileSize : Nat
deriving DecidableEq, Repr

/-- `strings.EqualFold` restricted to the ASCII case folding the MIME-type
strings of this program use: both sides agree after lower-casing every
character. -/
def equalFold (a b : String) : Bool :=
  a.toList.map Char.toLower == b.toList.map Char.toLower

/-- `Tools.isAllowedType`: linear scan with case-insensitive comparison. -/
def isAllowedType (t : Tools) (fileType : String) : Bool :=
  t.AllowedTypes.any (fun allowedType => equalFold fileType allowedType)

/-- One file part of a parsed multipart form (`*multipart.FileHeader`). -/
structure FilePart where
  filename : String
  content : Bytes
deriving DecidableEq, Repr

/-- An open file handle: full content plus current read position. -/
structure GoFile where
  content : Bytes
  pos : Nat
deriving DecidableEq, Repr

/-- `io.ReadAll`: everything from the current position; the position moves to
the end of the file. -/
def readAll (f : GoFile) : Bytes × GoFile :=
  (f.content.drop f.pos, { f with pos := f.content.length })

/-- `infile.Seek(0, 0)`: rewind to the start. -/
def seekStart (f : GoFile) : GoFile := { f with pos := 0 }

/-- `io.Copy dst src`: the bytes transferred are those from the current
position to the end. -/
def copyRemaining (f : GoFile) : Bytes := f.content.drop f.pos

/-- An incoming HTTP request as the upload pipeline sees it. -/
structure Request where
  /-- `r.MultipartForm.File` after a successful parse: field name to file
  headers. -/
  fileParts : List (String × List FilePart)
  /-- Total size in bytes of the non-file form values in the body. -/
  valueBytes : Nat
  /-- Total size of the multipart body in bytes. -/
  bodySize : Nat
  /-- `some limit` when the caller wrapped `r.Body` in
  `http.MaxBytesReader(w, r.Body, limit)` before the call, `none` otherwise
  (the pipeline itself never wraps). -/
  maxBytesLimit : Option Int
deriving DecidableEq, Repr

/-- `r.ParseMultipartForm(maxMemory)` (see the module comment): a
`MaxBytesReader` installed by the caller rejects an oversized body during
read; the non-file values are bounded by `maxMemory + 10 MiB`; file parts of
any size are accepted. -/
def parseMultipartForm (maxMemory : Int) (r : Request) :
    Except GoError (List (String × List FilePart)) :=
  match r.maxBytesLimit with
  | some limit =>
    if (r.bodySize : Int) > limit then .error "http: request body too large"
    else if (r.valueBytes : Int) > maxMemory + 10 * 1024 * 1024 then
      .error "multipart: message too large"
    else .ok r.fileParts
  | none =>
    if (r.valueBytes : Int) > maxMemory + 10 * 1024 * 1024 then
      .error "multipart: message too large"
    else .ok r.fileParts

/-- Go map lookup `form[field]` on the parsed file parts. -/
def lookupField (form : List (String × List FilePart)) (field : String) :
    Option (List FilePart) :=
  (form.find? (fun e => e.1 = field)).map (fun e => e.2)

/-- The `if t.MaxFileSize == 0` default installed (by mutation!) at the top of
both `UploadFile` and `UploadFiles`. -/
def withDefaultMaxFileSize (t : Tools) : Tools :=
  if t.MaxFileSize = 0 then { t with MaxFileSize := 1024 * 1024 * 10 } else t

/-- `Tools.processUploadedFile`: open the part; when an allow-list is
configured, `io.ReadAll` the content, rewind with `Seek(0,0)`, sniff the type
and reject disallowed types; pick the destination name (random rename or the
client name verbatim); create the destination file and copy the remaining
bytes into it, recording the number of bytes copied. -/
def processUploadedFile (env : Env) (t : Tools) (fs : FS) (hdr : FilePart)
    (uploadDir : String) (renameFile : Bool) :
    Except GoError (UploadedFile × FS) :=
  let infile : GoFile := { content := hdr.content, pos := 0 }
  let checked : Except GoError GoFile :=
    if t.AllowedTypes.length > 0 then
      let rd := readAll infile
      let fileBytes := rd.1
      let infile := seekStart rd.2
      let fileType := env.detect fileBytes
      if isAllowedType t fileType then .ok infile
      else .error ("file type " ++ fileType ++ " not allowed")
    else .ok infile
  match checked with
  | .error e => .error e
  | .ok infile =>
    let newFileName :=
      if renameFile then RandomString env.entropy 25 ++ goExt hdr.filename
      else hdr.filename
    let copied := copyRemaining infile
    let fs := fsWrite fs (joinPath uploadDir newFileName) copied
    .ok ({ NewFileName := newFileName, OriginalFileName := hdr.filename,
           FileSize := copied.length }, fs)

/-- `Tools.UploadFile`: default the rename flag to true, install the 10 MiB
default size by mutating `t`, parse the multipart form, process exactly the
first file under the field "file", and fail with "no file uploaded" when the
field is absent or empty.  Returns the result together with the (possibly
mutated) `Tools` and the filesystem. -/
def UploadFile (env : Env) (t : Tools) (fs : FS) (r : Request)
    (uploadDir : String) (rename : List Bool) :
    Except GoError UploadedFile × Tools × FS :=
  let renameFile := match rename with | [] => true | b :: _ => b
  let t := withDefaultMaxFileSize t
  match parseMultipartForm t.MaxFileSize r with
  | .error e => (.error e, t, fs)
  | .ok form =>
    match lookupField form "file" with
    | some (hdr :: _) =>
      match processUploadedFile env t fs hdr uploadDir renameFile with
      | .error e => (.error e, t, fs)
      | .ok (uf, fs2) => (.ok uf, t, fs2)
    | _ => (.error "no file uploaded", t, fs)

/-- Loop body of `UploadFiles` over the headers of one field: process each
header in order, fail fast on the first error (keeping the files already
written), and accumulate the records. -/
def processHeaders (env : Env) (t : Tools) (uploadDir : String)
    (renameFiles : Bool) :
    List FilePart → FS → List UploadedFile →
      (Except GoError (List UploadedFile)) × FS
  | [], fs, acc => (.ok acc, fs)
  | hdr :: rest, fs, acc =>
    match processUploadedFile env t fs hdr uploadDir renameFiles with
    | .error e => (.error e, fs)
    | .ok (uf, fs2) => processHeaders env t uploadDir renameFiles rest fs2 (acc ++ [uf])

/-- Outer loop of `UploadFiles` over every field of the parsed form. -/
def processFields (env : Env) (t : Tools) (uploadDir : String)
    (renameFiles : Bool) :
    List (String × List FilePart) → FS → List UploadedFile →
      (Except GoError (List UploadedFile)) × FS
  | [], fs, acc => (.ok acc, fs)
  | entry :: rest, fs, acc =>
    match processHeaders env t uploadDir renameFiles entry.2 fs acc with
    | (.error e, fs2) => (.error e, fs2)
    | (.ok acc2, fs2) => processFields env t uploadDir renameFiles rest fs2 acc2

/-- `Tools.UploadFiles`: like `UploadFile` but walks every file header under
every field of the form, failing fast on the first processing error. -/
def UploadFiles (env : Env) (t : Tools) (fs : FS) (r : Request)
    (uploadDir : String) (rename : List Bool) :
    Except GoError (List UploadedFile) × Tools × FS :=
  let renameFiles := match rename with | [] => true | b :: _ => b
  let t := withDefaultMaxFileSize t
  match parseMultipartForm t.MaxFileSize r with
  | .error e => (.error e, t, fs)
  | .ok form =>
    match processFields env t uploadDir renameFiles form fs [] with
    | (.error e, fs2) => (.error e, t, fs2)
    | (.ok ufs, fs2) => (.ok ufs, t, fs2)

/-! ### JSON codec -/

/-- The possible outcomes of `json.Decoder.Decode` that `ReadJSON`
distinguishes in its classification switch. -/
inductive GoDecodeErr where
  | syntaxError (offset : Int)
  | unexpectedEOF
  | unmarshalTypeError (field : String) (offset : Int)
  | eof
  | unknownField (name : String)
  | tooLarge
  | invalidUnmarshal (msg : String)
  | other (msg : String)
deriving DecidableEq, Repr

/-- The error-classification switch of `ReadJSON` (tools.go lines 254-280),
turning a decoder error into the message returned to the caller. -/
def classifyDecodeError (maxBytes : Int) : GoDecodeErr → GoError
  | .syntaxError offset =>
    "body contains badly-formed JSON (at character " ++ toString offset ++ ")"
  | .unexpectedEOF => "body contains badly-formed JSON"
  | .unmarshalTypeError field offset =>
    if field ≠ "" then "body contains incorrect JSON type for field " ++ field
    else "body contains incorrect JSON type (at character " ++ toString offset ++ ")"
  | .eof => "body must not be empty"
  | .unknownField name => "body contains unknown field " ++ name
  | .tooLarge => "body must not be larger than " ++ toString maxBytes ++ " bytes"
  | .invalidUnmarshal msg => "internal error: " ++ msg
  | .other msg => msg

/-- The request body as `ReadJSON` sees it: the byte sizes of the successive
well-formed JSON values it holds (each decodable into the caller's target
shape), optionally followed by non-whitespace garbage.  Malformed or
mismatching primary values are abstracted away — no claim under proof depends
on them — while the classification switch above is translated in full. -/
structure JSONBody where
  vals : List Nat
  trailing : Bool
deriving DecidableEq, Repr

/-- Total size of the body in bytes (the values, back to back). -/
def bodySizeJSON (b : JSONBody) : Nat := b.vals.sum

/-- The first `dec.Decode(data)`: an empty body yields `io.EOF`; a first value
whose bytes run past the `MaxBytesReader` limit makes the read fail with the
too-large sentinel; otherwise the value decodes. -/
def primaryDecode (limit : Int) (b : JSONBody) : Option GoDecodeErr :=
  match b.vals with
  | [] => some .eof
  | v :: _ => if (v : Int) > limit then some .tooLarge else none

/-- The check `dec.Decode(&struct\x7b\x7d\x7b\x7d)` performs after the primary
value: the only fact `ReadJSON` uses is whether the result is exactly
`io.EOF`, which happens precisely when nothing but end-of-stream remains; any
further value, garbage, decode error or read error is `notEOF`. -/
inductive SecondResult where
  | eof
  | notEOF
deriving DecidableEq, Repr

/-- Decode one further token from the remaining stream. -/
def secondDecode (b : JSONBody) : SecondResult :=
  match b.vals with
  | _ :: _ :: _ => .notEOF
  | _ => if b.trailing then .notEOF else .eof

/-- The effective body limit of `ReadJSON`: the configured `MaxJSONSize` when
positive, else the 1 MiB default. -/
def effectiveMaxJSONBytes (t : Tools) : Int :=
  if t.MaxJSONSize > 0 then t.MaxJSONSize else 1024 * 1024

/-- `Tools.ReadJSON`: wrap the body in `http.MaxBytesReader` at the effective
limit, decode the primary value (classifying any failure), then require the
rest of the stream to be exactly end-of-stream.  `none` is a successful call;
`some msg` is the returned error. -/
def ReadJSON (t : Tools) (b : JSONBody) : Option GoError :=
  let maxBytes := effectiveMaxJSONBytes t
  match primaryDecode maxBytes b with
  | some e => some (classifyDecodeError maxBytes e)
  | none =>
    match secondDecode b with
    | .eof => none
    | .notEOF => some "body must only contain a single JSON value"

/-! ### WriteJSON -/

/-- `http.Header`: a map from header name to list of values, as an
association list. -/
abbrev Header := List (String × List String)

/-- The map assignment `w.Header()[key] = value`: overwrite the entry when the
key is present, insert it otherwise. -/
def headerAssign (h : Header) (key : String) (value : List String) : Header :=
  if h.any (fun e => e.1 = key) then
    h.map (fun e => if e.1 = key then (key, value) else e)
  else h ++ [(key, value)]

/-- `w.Header().Set(key, v)`: replace the entry with the single value `v`. -/
def headerSet (h : Header) (key value : String) : Header :=
  headerAssign h key [value]

/-- `for key, value := range headers[0] \x7b w.Header()[key] = value \x7d`. -/
def applyHeaderMap (h : Header) (m : Header) : Header :=
  m.foldl (fun acc e => headerAssign acc e.1 e.2) h

/-- An `http.ResponseWriter` as `WriteJSON` drives it. -/
structure Response where
  headers : Header
  status : Option Int
  written : Bytes
deriving DecidableEq, Repr

/-- `Tools.WriteJSON`: marshal the value (here: the abstract result of
`json.Marshal`, an error or the serialized bytes), apply the first extra
header map if any, set `Content-Type: application/json`, write the status
code, then write the bytes. -/
def WriteJSON (marshalResult : Except GoError Bytes) (w : Response)
    (status : Int) (headers : List Header) : Except GoError Unit × Response :=
  match marshalResult with
  | .error e => (.error e, w)
  | .ok out =>
    let w := match headers with
      | [] => w
      | h :: _ => { w with headers := applyHeaderMap w.headers h }
    let w := { w with headers := headerSet w.headers "Content-Type" "application/json" }
    let w := { w with status := some status }
    let w := { w with written := w.written ++ out }
    (.ok (), w)

/-! ### Shared helper lemmas and concrete environments -/

/-- A fixed benign environment for concrete runs. -/
def envDefault : Env :=
  { detect := fun _ => "application/octet-stream", entropy := fun _ => 0 }

theorem fsRead_fsWrite_self (fs : FS) (p : String) (c : Bytes) :
    fsRead (fsWrite fs p c) p = some c := by
  simp [fsRead, fsWrite, List.find?]

theorem allowedTypes_withDefault (t : Tools) :
    (withDefaultMaxFileSize t).AllowedTypes = t.AllowedTypes := by
  unfold withDefaultMaxFileSize; split <;> rfl

theorem isAllowedType_withDefault (t : Tools) (s : String) :
    isAllowedType (withDefaultMaxFileSize t) s = isAllowedType t s := by
  unfold isAllowedType; rw [allowedTypes_withDefault]

/-! ### Claim theorems -/

/-- Claim C10: for every `WriteJSON` call given more than one extra-header
map, only the first map is applied; every later map is ignored entirely, for
every status code and marshal outcome (in particular every serializable
value). -/
theorem writejson_first_header_map_only (m : Except GoError Bytes)
    (w : Response) (status : Int) (h1 h2 : Header) (rest : List Header) :
    WriteJSON m w status (h1 :: h2 :: rest) = WriteJSON m w status [h1] := by
  cases m <;> rfl

/-- Claim C3 counterexample: a call with `MaxFileSize = 0` mutates the
caller's configuration (the 10 MiB default is written into the struct), so
the configuration is not left unchanged by every call. -/
theorem upload_config_mutated_counterexample :
    (UploadFile envDefault ⟨0, [], 0, false⟩ [] ⟨[], 0, 0, none⟩ "uploads" []).2.1
      ≠ (⟨0, [], 0, false⟩ : Tools) := by decide

/-- Claim C3 (amended): an upload call leaves the configuration unchanged
whenever `MaxFileSize` is nonzero; when it is zero the call writes the 10 MiB
default into `MaxFileSize` and changes nothing else — `AllowedTypes` and the
JSON settings are never written — for every request and rename flag. -/
theorem upload_config_frame (env : Env) (t : Tools) (fs : FS) (r : Request)
    (dir : String) (rn : List Bool) :
    (UploadFile env t fs r dir rn).2.1 = withDefaultMaxFileSize t ∧
    (UploadFiles env t fs r dir rn).2.1 = withDefaultMaxFileSize t ∧
    withDefaultMaxFileSize t =
      (if t.MaxFileSize = 0 then { t with MaxFileSize := 1024 * 1024 * 10 } else t) := by
  refine ⟨?_, ?_, rfl⟩
  · simp only [UploadFile]
    split
    · rfl
    · split
      · split <;> rfl
      · rfl
  · simp only [UploadFiles]
    split
    · rfl
    · split <;> rfl

/-- Claim C1 counterexample: with `MaxFileSize = 5` and an unwrapped request
whose multipart body (200 bytes, carrying a 6-byte file) exceeds that limit,
`UploadFile` succeeds and writes the file — `ParseMultipartForm` only bounds
in-memory buffering of the form, not the size of file parts. -/
theorem upload_oversized_body_counterexample :
    (200 : Int) > (5 : Int) ∧
    UploadFile envDefault ⟨5, [], 0, false⟩ []
        ⟨[("file", [⟨"a.txt", [104, 105, 33, 33, 33, 33]⟩])], 0, 200, none⟩
        "uploads" [false]
      = (.ok ⟨"a.txt", "a.txt", 6⟩, ⟨5, [], 0, false⟩,
         [("uploads/a.txt", [104, 105, 33, 33, 33, 33])]) := by decide

/-- Claim C1 (amended): the upload calls reject an oversized body only when
the caller has wrapped the request body in `http.MaxBytesReader` at some
limit (as the repository's own oversize test does): then a body exceeding the
limit fails with "http: request body too large" and no file is written.  The
bare call does not enforce `maxFileSize` on file parts, which
`ParseMultipartForm` spills to disk without error. -/
theorem upload_maxbytes_limit (env : Env) (t : Tools) (fs : FS) (r : Request)
    (dir : String) (rn : List Bool) (limit : Int)
    (hw : r.maxBytesLimit = some limit) (hb : (r.bodySize : Int) > limit) :
    UploadFile env t fs r dir rn
        = (.error "http: request body too large", withDefaultMaxFileSize t, fs) ∧
    UploadFiles env t fs r dir rn
        = (.error "http: request body too large", withDefaultMaxFileSize t, fs) := by
  have hp : parseMultipartForm (withDefaultMaxFileSize t).MaxFileSize r
      = .error "http: request body too large" := by
    unfold parseMultipartForm
    rw [hw]
    simp [hb]
  constructor
  · simp only [UploadFile]
    rw [hp]
  · simp only [UploadFiles]
    rw [hp]

/-- Witness for the amended claim C1, at the shape of the repository's own
oversize test: limit 5 installed by the caller, body of 6 bytes. -/
theorem upload_maxbytes_limit_witness :
    UploadFile envDefault ⟨5, [], 0, false⟩ []
        ⟨[("file", [⟨"a.txt", [1, 2, 3, 4, 5, 6]⟩])], 0, 6, some 5⟩ "up" []
      = (.error "http: request body too large", ⟨5, [], 0, false⟩, []) ∧
    UploadFiles envDefault ⟨5, [], 0, false⟩ []
        ⟨[("file", [⟨"a.txt", [1, 2, 3, 4, 5, 6]⟩])], 0, 6, some 5⟩ "up" []
      = (.error "http: request body too large", ⟨5, [], 0, false⟩, []) :=
  upload_maxbytes_limit envDefault ⟨5, [], 0, false⟩ []
    ⟨[("file", [⟨"a.txt", [1, 2, 3, 4, 5, 6]⟩])], 0, 6, some 5⟩ "up" [] 5
    rfl (by decide)

theorem processFields_all_empty (env : Env) (t : Tools) (dir : String)
    (rn : Bool) (form : List (String × List FilePart)) (fs : FS)
    (acc : List UploadedFile) (h : ∀ e ∈ form, e.2 = []) :
    processFields env t dir rn form fs acc = (.ok acc, fs) := by
  induction form generalizing fs acc with
  | nil => rfl
  | cons entry rest ih =>
    have he : entry.2 = [] := h entry (by simp)
    have hr : ∀ e ∈ rest, e.2 = [] := fun e hm => h e (by simp [hm])
    simp only [processFields, he, processHeaders]
    exact ih fs acc hr

/-- Claim C9: a request whose multipart body parses but holds no file part
under any field makes `UploadFiles` succeed with the empty record list, no
error and no file written. -/
theorem uploadfiles_no_files (env : Env) (t : Tools) (fs : FS) (r : Request)
    (dir : String) (rn : List Bool)
    (hp : parseMultipartForm (withDefaultMaxFileSize t).MaxFileSize r = .ok r.fileParts)
    (hempty : ∀ e ∈ r.fileParts, e.2 = []) :
    UploadFiles env t fs r dir rn = (.ok [], withDefaultMaxFileSize t, fs) := by
  simp only [UploadFiles, hp]
  rw [processFields_all_empty env (withDefaultMaxFileSize t) dir _ r.fileParts fs [] hempty]

/-- Witness for claim C9: a parsed form with one file-less field yields the
empty list, no error, and an unchanged filesystem. -/
theorem uploadfiles_no_files_witness :
    UploadFiles envDefault ⟨5, [], 0, false⟩ [] ⟨[("note", [])], 3, 10, none⟩ "up" [true]
      = (.ok [], ⟨5, [], 0, false⟩, []) :=
  uploadfiles_no_files envDefault ⟨5, [], 0, false⟩ []
    ⟨[("note", [])], 3, 10, none⟩ "up" [true] (by decide) (by decide)

/-- Claim C8: when the parsed form has no file under the field "file" (absent
field or empty list) `UploadFile` fails with "no file uploaded" and writes
nothing; when several files sit under that field, the call's result is that
of processing exactly the first header — the tail never enters the result. -/
theorem uploadfile_field_file (env : Env) (t : Tools) (fs : FS) (r : Request)
    (dir : String) (rn : List Bool)
    (hp : parseMultipartForm (withDefaultMaxFileSize t).MaxFileSize r = .ok r.fileParts) :
    ((lookupField r.fileParts "file" = none ∨ lookupField r.fileParts "file" = some []) →
      UploadFile env t fs r dir rn
        = (.error "no file uploaded", withDefaultMaxFileSize t, fs)) ∧
    (∀ hdr rest, lookupField r.fileParts "file" = some (hdr :: rest) →
      UploadFile env t fs r dir rn =
        match processUploadedFile env (withDefaultMaxFileSize t) fs hdr dir
            (match rn with | [] => true | b :: _ => b) with
        | .error e => (.error e, withDefaultMaxFileSize t, fs)
        | .ok (uf, fs2) => (.ok uf, withDefaultMaxFileSize t, fs2)) := by
  constructor
  · intro h
    rcases h with h | h <;> simp only [UploadFile, hp, h]
  · intro hdr rest h
    simp only [UploadFile, hp, h]

/-- Witness for claim C8: a form without the "file" field fails with
"no file uploaded" and leaves the filesystem empty. -/
theorem uploadfile_field_file_witness :
    UploadFile envDefault ⟨5, [], 0, false⟩ [] ⟨[("other", [])], 0, 10, none⟩ "up" []
      = (.error "no file uploaded", ⟨5, [], 0, false⟩, []) :=
  (uploadfile_field_file envDefault ⟨5, [], 0, false⟩ []
    ⟨[("other", [])], 0, 10, none⟩ "up" [] (by decide)).1 (Or.inl (by decide))

/-- Claim C5: once the primary JSON value decodes within the limit, the call
fails with "body must only contain a single JSON value" exactly when the
remaining body holds anything besides end-of-stream (a further value or
trailing garbage), and succeeds otherwise. -/
theorem readjson_single_value (t : Tools) (b : JSONBody) (v : Nat)
    (rest : List Nat) (hv : b.vals = v :: rest)
    (hle : (v : Int) ≤ effectiveMaxJSONBytes t) :
    (ReadJSON t b = some "body must only contain a single JSON value" ↔
      (rest ≠ [] ∨ b.trailing = true)) ∧
    (rest = [] → b.trailing = false → ReadJSON t b = none) := by
  have hnot : ¬ ((v : Int) > effectiveMaxJSONBytes t) := not_lt.mpr hle
  simp only [ReadJSON, primaryDecode, secondDecode, hv]
  rw [if_neg hnot]
  cases rest with
  | nil => cases hb : b.trailing <;> simp [hb]
  | cons w ws => simp

/-- Witness for claim C5: a body of two concatenated JSON values fails with
the multiple-values error. -/
theorem readjson_single_value_witness :
    ReadJSON ⟨0, [], 0, false⟩ ⟨[2, 3], false⟩
      = some "body must only contain a single JSON value" :=
  ((readjson_single_value ⟨0, [], 0, false⟩ ⟨[2, 3], false⟩ 2 [3] rfl
    (by decide)).1).mpr (Or.inl (by decide))

/-- Claim C6 counterexample: a body of total size 1048577 bytes — exceeding
the 1 MiB default limit — whose first value is a single byte fails with the
multiple-values error, not with the body-too-large error the claim requires
for every oversized body. -/
theorem readjson_oversized_counterexample :
    (bodySizeJSON ⟨[1, 1048576], false⟩ : Int) > effectiveMaxJSONBytes ⟨0, [], 0, false⟩ ∧
    ReadJSON ⟨0, [], 0, false⟩ ⟨[1, 1048576], false⟩
      = some "body must only contain a single JSON value" ∧
    ("body must only contain a single JSON value" : String)
      ≠ "body must not be larger than 1048576 bytes" := by decide

/-- Claim C6 (amended): whenever the primary decode must read past the
effective limit (the configured `MaxJSONSize` when positive, else the 1 MiB
default), `ReadJSON` fails with the body-too-large error reporting exactly
the enforced limit; an oversized remainder after a small primary value is
instead reported as the multiple-values error. -/
theorem readjson_body_too_large (t : Tools) (b : JSONBody) (v : Nat)
    (rest : List Nat) (hv : b.vals = v :: rest)
    (hgt : (v : Int) > effectiveMaxJSONBytes t) :
    ReadJSON t b
      = some ("body must not be larger than "
          ++ toString (effectiveMaxJSONBytes t) ++ " bytes") ∧
    effectiveMaxJSONBytes t
      = (if t.MaxJSONSize > 0 then t.MaxJSONSize else 1024 * 1024) := by
  refine ⟨?_, rfl⟩
  simp only [ReadJSON, primaryDecode, hv]
  rw [if_pos hgt]
  rfl

/-- Witness for the amended claim C6: with `MaxJSONSize = 5` a 6-byte value
fails and the reported limit string is exactly "5". -/
theorem readjson_body_too_large_witness :
    ReadJSON ⟨0, [], 5, false⟩ ⟨[6], false⟩
      = some ("body must not be larger than "
          ++ toString (effectiveMaxJSONBytes ⟨0, [], 5, false⟩) ++ " bytes") ∧
    toString (effectiveMaxJSONBytes ⟨0, [], 5, false⟩) = "5" :=
  ⟨(readjson_body_too_large ⟨0, [], 5, false⟩ ⟨[6], false⟩ 6 [] rfl (by decide)).1,
   by decide⟩

/-- When the part passes (or skips) the type check, `processUploadedFile`
writes the full content — the allow-list pre-read is rewound by `Seek(0,0)`
before the copy — and reports its exact byte length. -/
theorem processUploadedFile_ok (env : Env) (t : Tools) (fs : FS)
    (hdr : FilePart) (dir : String) (rn : Bool)
    (ha : t.AllowedTypes = [] ∨ isAllowedType t (env.detect hdr.content) = true) :
    processUploadedFile env t fs hdr dir rn
      = .ok ({ NewFileName :=
                 (if rn then RandomString env.entropy 25 ++ goExt hdr.filename
                  else hdr.filename),
               OriginalFileName := hdr.filename,
               FileSize := hdr.content.length },
             fsWrite fs
               (joinPath dir
                 (if rn then RandomString env.entropy 25 ++ goExt hdr.filename
                  else hdr.filename))
               hdr.content) := by
  rcases ha with ha | ha
  · have hlen : ¬ (t.AllowedTypes.length > 0) := by simp [ha]
    simp [processUploadedFile, hlen, copyRemaining]
  · by_cases hlen : t.AllowedTypes.length > 0
    · simp [processUploadedFile, hlen, readAll, seekStart, ha, copyRemaining]
    · simp [processUploadedFile, hlen, copyRemaining]

/-- Claim C2: a valid single-file request within the size limit (the form
parses, the "file" field holds exactly one part, and the part passes or skips
the allow-list check) makes `UploadFile` return a record whose `FileSize` is
the exact byte length of the submitted content, with a file of exactly that
content present at `uploadDir/NewFileName` at return — also when the
allow-list pre-read consumed the stream and the position was reset before the
copy. -/
theorem uploadfile_exact_size (env : Env) (t : Tools) (fs : FS) (r : Request)
    (dir fname : String) (content : Bytes) (rnFlag : Bool)
    (hp : parseMultipartForm (withDefaultMaxFileSize t).MaxFileSize r = .ok r.fileParts)
    (hf : lookupField r.fileParts "file" = some [⟨fname, content⟩])
    (ha : t.AllowedTypes = [] ∨ isAllowedType t (env.detect content) = true) :
    ∃ uf fs2,
      UploadFile env t fs r dir [rnFlag] = (.ok uf, withDefaultMaxFileSize t, fs2) ∧
      uf.FileSize = content.length ∧
      uf.OriginalFileName = fname ∧
      fsRead fs2 (joinPath dir uf.NewFileName) = some content := by
  have ha2 : (withDefaultMaxFileSize t).AllowedTypes = [] ∨
      isAllowedType (withDefaultMaxFileSize t)
        (env.detect (FilePart.mk fname content).content) = true := by
    rw [allowedTypes_withDefault, isAllowedType_withDefault]
    exact ha
  have hproc := processUploadedFile_ok env (withDefaultMaxFileSize t) fs
    ⟨fname, content⟩ dir rnFlag ha2
  refine ⟨{ NewFileName :=
              (if rnFlag then
                RandomString env.entropy 25 ++ goExt (FilePart.mk fname content).filename
               else (FilePart.mk fname content).filename),
            OriginalFileName := fname, FileSize := content.length },
          fsWrite fs
            (joinPath dir
              (if rnFlag then
                RandomString env.entropy 25 ++ goExt (FilePart.mk fname content).filename
               else (FilePart.mk fname content).filename))
            content,
          ?_, rfl, rfl, fsRead_fsWrite_self fs _ content⟩
  simp only [UploadFile, hp, hf, hproc]

/-- Witness for claim C2: a 5-byte upload through the allow-list path
(pre-read, sniff, rewind) with renaming; the record reports 5 bytes and the
written file holds the submitted content. -/
theorem uploadfile_exact_size_witness :
    ∃ uf fs2,
      UploadFile ⟨fun _ => "text/plain", fun _ => 1⟩ ⟨0, ["TEXT/PLAIN"], 0, false⟩ []
          ⟨[("file", [⟨"x.txt", [1, 2, 3, 4, 5]⟩])], 0, 60, none⟩ "up" [true]
        = (.ok uf, withDefaultMaxFileSize ⟨0, ["TEXT/PLAIN"], 0, false⟩, fs2) ∧
      uf.FileSize = 5 ∧
      uf.OriginalFileName = "x.txt" ∧
      fsRead fs2 (joinPath "up" uf.NewFileName) = some [1, 2, 3, 4, 5] :=
  uploadfile_exact_size ⟨fun _ => "text/plain", fun _ => 1⟩
    ⟨0, ["TEXT/PLAIN"], 0, false⟩ []
    ⟨[("file", [⟨"x.txt", [1, 2, 3, 4, 5]⟩])], 0, 60, none⟩ "up" "x.txt"
    [1, 2, 3, 4, 5] true (by decide) (by decide) (Or.inr (by decide))

/-- Claim C4: with a non-empty allow-list, a part whose type — sniffed from
the byte content — fails the case-insensitive allow-list check makes
`UploadFile` fail with "file type <detected> not allowed" and write nothing;
with an empty allow-list no sniffing happens at all: the outcome of
processing is identical for any two content-type detectors. -/
theorem upload_type_not_allowed (env : Env) (t : Tools) (fs : FS) (r : Request)
    (dir : String) (rn : List Bool) (hdr : FilePart) (rest : List FilePart)
    (hp : parseMultipartForm (withDefaultMaxFileSize t).MaxFileSize r = .ok r.fileParts)
    (hf : lookupField r.fileParts "file" = some (hdr :: rest)) :
    (t.AllowedTypes ≠ [] → isAllowedType t (env.detect hdr.content) = false →
      UploadFile env t fs r dir rn
        = (.error ("file type " ++ env.detect hdr.content ++ " not allowed"),
           withDefaultMaxFileSize t, fs)) ∧
    (t.AllowedTypes = [] → ∀ d1 d2 : Bytes → String, ∀ rnb : Bool,
      processUploadedFile ⟨d1, env.entropy⟩ t fs hdr dir rnb
        = processUploadedFile ⟨d2, env.entropy⟩ t fs hdr dir rnb) := by
  constructor
  · intro hne hnot
    have hlen : (withDefaultMaxFileSize t).AllowedTypes.length > 0 := by
      rw [allowedTypes_withDefault]
      exact List.length_pos.mpr hne
    have hproc : processUploadedFile env (withDefaultMaxFileSize t) fs hdr dir
        (match rn with | [] => true | b :: _ => b)
        = .error ("file type " ++ env.detect hdr.content ++ " not allowed") := by
      simp [processUploadedFile, hlen, readAll, seekStart,
        isAllowedType_withDefault, hnot]
    simp only [UploadFile, hp, hf, hproc]
  · intro hz d1 d2 rnb
    have hlen : ¬ (t.AllowedTypes.length > 0) := by simp [hz]
    simp [processUploadedFile, hlen]

/-- Witness for claim C4, at the shape of the repository's "not allowed"
test: allow-list ["image/jpeg"], sniffed type "image/png". -/
theorem upload_type_not_allowed_witness :
    UploadFile ⟨fun _ => "image/png", fun _ => 1⟩ ⟨0, ["image/jpeg"], 0, false⟩ []
        ⟨[("file", [⟨"test.png", [9, 9]⟩])], 0, 40, none⟩ "up" [false]
      = (.error "file type image/png not allowed",
         withDefaultMaxFileSize ⟨0, ["image/jpeg"], 0, false⟩, []) :=
  (upload_type_not_allowed ⟨fun _ => "image/png", fun _ => 1⟩
    ⟨0, ["image/jpeg"], 0, false⟩ []
    ⟨[("file", [⟨"test.png", [9, 9]⟩])], 0, 40, none⟩ "up" [false]
    ⟨"test.png", [9, 9]⟩ [] (by decide) (by decide)).1 (by decide) (by decide)

/-! ### Rename policy (claim C7) -/

/-- No character of the list is a dot or a path separator. -/
def noDotSlash (l : List Char) : Prop := ∀ c ∈ l, c ≠ '.' ∧ c ≠ '/'

theorem goExtRev_eq_empty (l acc : List Char) (h : noDotSlash l) :
    goExtRev l acc = "" := by
  induction l generalizing acc with
  | nil => rfl
  | cons c rest ih =>
    have hc := h c (by simp)
    simp only [goExtRev, if_neg hc.2, if_neg hc.1]
    exact ih _ (fun x hx => h x (by simp [hx]))

theorem goExtRev_append (l1 l2 acc : List Char) (h : noDotSlash l1) :
    goExtRev (l1 ++ l2) acc = goExtRev l2 (l1.reverse ++ acc) := by
  induction l1 generalizing acc with
  | nil => simp
  | cons c rest ih =>
    have hc := h c (by simp)
    have hrest : noDotSlash rest := fun x hx => h x (by simp [hx])
    show goExtRev (c :: (rest ++ l2)) acc = goExtRev l2 ((c :: rest).reverse ++ acc)
    simp only [goExtRev, if_neg hc.2, if_neg hc.1]
    rw [ih (c :: acc) hrest]
    congr 1
    simp

theorem goExtRev_form (l acc : List Char) (hacc : noDotSlash acc) :
    goExtRev l acc = "" ∨
      ∃ tl, goExtRev l acc = String.mk ('.' :: tl) ∧ noDotSlash tl := by
  induction l generalizing acc with
  | nil => exact Or.inl rfl
  | cons c rest ih =>
    by_cases hs : c = '/'
    · exact Or.inl (by simp [goExtRev, hs])
    · by_cases hd : c = '.'
      · exact Or.inr ⟨acc, by simp [goExtRev, hs, hd], hacc⟩
      · simp only [goExtRev, if_neg hs, if_neg hd]
        refine ih (c :: acc) (fun x hx => ?_)
        rcases List.mem_cons.mp hx with h1 | h1
        · subst h1; exact ⟨hd, hs⟩
        · exact hacc x h1

/-- `filepath.Ext` returns either the empty string or a dot followed by
dot-free, slash-free characters. -/
theorem goExt_form (p : String) :
    goExt p = "" ∨ ∃ tl, goExt p = String.mk ('.' :: tl) ∧ noDotSlash tl :=
  goExtRev_form p.toList.reverse [] (fun c hc => absurd hc (List.not_mem_nil c))

/-- No character of the 64-character random source is a dot or a slash. -/
theorem randomStringSource_chars :
    ∀ k, k < 64 → randomStringSource.toList.getD k 'a' ≠ '.' ∧
      randomStringSource.toList.getD k 'a' ≠ '/' := by decide

theorem randomString_noDotSlash (e : Nat → Nat) (n : Nat) :
    noDotSlash (RandomString e n).toList := by
  intro c hc
  have hc2 : c ∈ (List.range n).map (fun i =>
      randomStringSource.toList.getD (e i % randomStringSource.length) 'a') := hc
  rcases List.mem_map.mp hc2 with ⟨i, _, hci⟩
  have hlt : e i % randomStringSource.length < 64 := by
    have h64 : randomStringSource.length = 64 := rfl
    rw [h64]
    exact Nat.mod_lt _ (by norm_num)
  rw [← hci]
  exact randomStringSource_chars _ hlt

/-- The generated name always has exactly the requested length. -/
theorem randomString_length (e : Nat → Nat) (n : Nat) :
    (RandomString e n).length = n := by
  simp [RandomString, String.length_mk]

/-- Appending the original extension to a generated name yields a name with
exactly that extension: the generated characters contain no dot. -/
theorem goExt_randomString_append (e : Nat → Nat) (n : Nat) (f : String) :
    goExt (RandomString e n ++ goExt f) = goExt f := by
  have hRrev : noDotSlash (RandomString e n).toList.reverse :=
    fun c hc => randomString_noDotSlash e n c (List.mem_reverse.mp hc)
  rcases goExt_form f with h | ⟨tl, h, htl⟩
  · rw [h]
    show goExtRev (RandomString e n ++ "").data.reverse [] = ""
    have hd : (RandomString e n ++ "").data.reverse
        = (RandomString e n).toList.reverse := by
      rw [String.data_append]; simp [String.toList]
    rw [hd]
    exact goExtRev_eq_empty _ _ hRrev
  · rw [h]
    show goExtRev (RandomString e n ++ String.mk ('.' :: tl)).data.reverse []
      = String.mk ('.' :: tl)
    have hd : (RandomString e n ++ String.mk ('.' :: tl)).data.reverse
        = tl.reverse ++ '.' :: (RandomString e n).toList.reverse := by
      rw [String.data_append]
      show ((RandomString e n).toList ++ ('.' :: tl)).reverse = _
      rw [List.reverse_append]
      simp
    rw [hd]
    have htlrev : noDotSlash tl.reverse :=
      fun c hc => htl c (List.mem_reverse.mp hc)
    rw [goExtRev_append _ _ _ htlrev]
    simp only [goExtRev, if_neg (by decide : ¬ ('.' = '/')), if_pos rfl]
    simp

/-- Inversion for a successful `processUploadedFile`: the returned record
carries the client name as `OriginalFileName` and the destination name the
rename branch computed. -/
theorem processUploadedFile_ok_names (env : Env) (t : Tools) (fs : FS)
    (hdr : FilePart) (dir : String) (rn : Bool) (uf : UploadedFile) (fs2 : FS)
    (h : processUploadedFile env t fs hdr dir rn = .ok (uf, fs2)) :
    uf.OriginalFileName = hdr.filename ∧
    uf.NewFileName
      = (if rn then RandomString env.entropy 25 ++ goExt hdr.filename
         else hdr.filename) := by
  simp only [processUploadedFile] at h
  split at h
  · simp at h
  · simp only [Except.ok.injEq, Prod.mk.injEq] at h
    obtain ⟨huf, -⟩ := h
    subst huf
    exact ⟨rfl, rfl⟩

/-- A concrete environment whose entropy stream constantly returns the
64-bit prime 9223372036854776257; that prime is congruent to 1 mod 64, so
every generated character is `randomStringSource[1] = 'b'`. -/
def envCollide : Env :=
  { detect := fun _ => "text/plain", entropy := fun _ => 9223372036854776257 }

/-- Claim C7 counterexample: renaming is requested, yet the returned
`NewFileName` equals `OriginalFileName`.  The entropy value is a 64-bit prime
congruent to 1 mod 64 — a value `crypto/rand.Prime` can produce — so the
25-character generated name is 25 times 'b'; uploading a file named by those
same 25 characters plus ".txt" makes the renamed destination collide with the
client-declared name, refuting "newFileName differs from originalFileName". -/
theorem upload_rename_collision_counterexample :
    processUploadedFile envCollide ⟨10, [], 0, false⟩ []
        ⟨"bbbbbbbbbbbbbbbbbbbbbbbbb.txt", [7, 7]⟩ "up" true
      = .ok (⟨"bbbbbbbbbbbbbbbbbbbbbbbbb.txt", "bbbbbbbbbbbbbbbbbbbbbbbbb.txt", 2⟩,
             [("up/bbbbbbbbbbbbbbbbbbbbbbbbb.txt", [7, 7])]) := by decide

/-- Claim C7 (amended): on every successful upload, `rename=false` returns
`NewFileName` equal to `OriginalFileName`; `rename=true` returns a generated
name of fixed length 25 followed by the original name's extension, so the
extension is preserved — and the name differs from the original exactly when
the generated part differs from the original's stem (a collision is possible
only when the client name is itself 25 generator characters plus the same
extension). -/
theorem upload_rename_policy (env : Env) (t : Tools) (fs : FS)
    (hdr : FilePart) (dir : String) (rn : Bool) (uf : UploadedFile) (fs2 : FS)
    (h : processUploadedFile env t fs hdr dir rn = .ok (uf, fs2)) :
    uf.OriginalFileName = hdr.filename ∧
    (rn = false → uf.NewFileName = uf.OriginalFileName) ∧
    (rn = true →
      uf.NewFileName = RandomString env.entropy 25 ++ goExt hdr.filename ∧
      (RandomString env.entropy 25).length = 25 ∧
      goExt uf.NewFileName = goExt hdr.filename) := by
  obtain ⟨ho, hn⟩ := processUploadedFile_ok_names env t fs hdr dir rn uf fs2 h
  refine ⟨ho, ?_, ?_⟩
  · intro hrn
    subst hrn
    simp at hn
    rw [hn, ho]
  · intro hrn
    subst hrn
    simp at hn
    exact ⟨hn, randomString_length env.entropy 25,
      by rw [hn]; exact goExt_randomString_append env.entropy 25 hdr.filename⟩

/-- Witness for the amended claim C7: a concrete renamed upload of "doc.txt"
whose destination is the 25-character generated name plus ".txt". -/
theorem upload_rename_policy_witness :
    ("bbbbbbbbbbbbbbbbbbbbbbbbb.txt" : String)
        = RandomString envCollide.entropy 25 ++ goExt "doc.txt" ∧
    (RandomString envCollide.entropy 25).length = 25 ∧
    goExt ("bbbbbbbbbbbbbbbbbbbbbbbbb.txt" : String) = goExt "doc.txt" :=
  (upload_rename_policy envCollide ⟨10, [], 0, false⟩ [] ⟨"doc.txt", [1]⟩ "up"
    true ⟨"bbbbbbbbbbbbbbbbbbbbbbbbb.txt", "doc.txt", 1⟩
    [("up/bbbbbbbbbbbbbbbbbbbbbbbbb.txt", [1])] (by decide)).2.2 rfl
